import Mathlib

/-!
# HackID — formal model of the verification system

Shallow embedding of the HackID repository in Lean 4.

* `hackid-front/src/lib/domain-verification.ts` — organizer e-mail domain
  allow-listing (`extractDomain`, `verifyOrganizerDomain`, `getRoleName`),
  embedded over `List Char` with JavaScript string semantics
  (`includes`, `endsWith`, `split`, `toLowerCase`).
* `hackid-front/src/types.ts` / `hackid-front/src/app/actions.ts` — the
  frontend `Verdict` enumeration and the server actions `getHackathons`,
  `getProjectsByHackathon`, `scanUrl`, with the fallible database / fetch
  call made an explicit `Except` input and the `catch` branch embedded as
  the corresponding match arm.
* The backend verification pipeline (claim scoring, eligibility checking,
  decision engine, `verify` / `verifyBatch`) is described by the project
  documentation but its Python sources are not part of this tree, so those
  components are modelled from the specification; each such definition is
  marked `Modelled from the spec:` in its doc comment.
-/

namespace HackID

/-! ## JavaScript string primitives, over `List Char` -/

/-- The character list of a string literal. -/
def chars (s : String) : List Char := s.data

/-- JavaScript `String.prototype.startsWith`: `listStarts s p` is `true`
iff `p` is an initial segment of `s`. -/
def listStarts : List Char → List Char → Bool
  | _, [] => true
  | [], _ :: _ => false
  | a :: s, b :: p => a == b && listStarts s p

/-- JavaScript `String.prototype.includes`: substring containment. -/
def hasSub : List Char → List Char → Bool
  | [], p => listStarts [] p
  | a :: t, p => listStarts (a :: t) p || hasSub t p

/-- JavaScript `String.prototype.endsWith`. -/
def listEnds (s p : List Char) : Bool := listStarts s.reverse p.reverse

/-- JavaScript `String.prototype.split` with a one-character separator:
splits at every occurrence, keeping empty segments. -/
def jsSplit (c : Char) : List Char → List (List Char)
  | [] => [[]]
  | a :: t =>
    if a = c then [] :: jsSplit c t
    else
      match jsSplit c t with
      | [] => [[a]]
      | s :: rest => (a :: s) :: rest

/-- JavaScript `String.prototype.toLowerCase` (per-character lowering). -/
def jsToLower (s : List Char) : List Char := s.map Char.toLower

/-! ### Lemmas about the string primitives -/

theorem listStarts_nil (p : List Char) : listStarts [] p = true ↔ p = [] := by
  cases p <;> simp [listStarts]

theorem listStarts_single (a c : Char) (t : List Char) :
    listStarts (a :: t) [c] = (a == c) := by
  simp [listStarts]

/-- A one-character `includes` is exactly membership. -/
theorem hasSub_single (l : List Char) (c : Char) :
    hasSub l [c] = true ↔ c ∈ l := by
  induction l with
  | nil => simp [hasSub, listStarts]
  | cons a t ih =>
    simp [hasSub, listStarts_single, ih, Bool.or_eq_true, beq_iff_eq]
    constructor
    · rintro (h | h)
      · exact Or.inl h.symm
      · exact Or.inr h
    · rintro (h | h)
      · exact Or.inl h.symm
      · exact Or.inr h

/-- Every element of a matched initial segment is an element of the string. -/
theorem listStarts_mem {s p : List Char} (h : listStarts s p = true) :
    ∀ x ∈ p, x ∈ s := by
  induction p generalizing s with
  | nil => intro x hx; cases hx
  | cons b q ih =>
    cases s with
    | nil => simp [listStarts] at h
    | cons a t =>
      simp only [listStarts, Bool.and_eq_true, beq_iff_eq] at h
      intro x hx
      rcases List.mem_cons.mp hx with hx | hx
      · subst hx; rw [h.1]; exact List.mem_cons_self _ _
      · exact List.mem_cons_of_mem _ (ih h.2 x hx)

/-- Every character of a matched suffix is a character of the string. -/
theorem listEnds_mem {s p : List Char} (h : listEnds s p = true) :
    ∀ x ∈ p, x ∈ s := by
  intro x hx
  have := listStarts_mem (s := s.reverse) (p := p.reverse) h x
    (List.mem_reverse.mpr hx)
  exact List.mem_reverse.mp this

/-- `jsSplit` never returns the empty list of segments. -/
theorem jsSplit_ne_nil (c : Char) (l : List Char) : jsSplit c l ≠ [] := by
  induction l with
  | nil => simp [jsSplit]
  | cons a t ih =>
    by_cases h : a = c
    · simp [jsSplit, h]
    · simp only [jsSplit, if_neg h]
      cases hs : jsSplit c t with
      | nil => simp
      | cons s rest => simp

/-- The first segment of `jsSplit` is the run of characters before the
first separator. -/
theorem jsSplit_head (c : Char) (l : List Char) :
    (jsSplit c l).head? = some (l.takeWhile (fun a => a != c)) := by
  induction l with
  | nil => simp [jsSplit]
  | cons a t ih =>
    by_cases h : a = c
    · simp [jsSplit, h, List.takeWhile_cons]
    · have hb : (a != c) = true := bne_iff_ne.mpr h
      simp only [jsSplit, if_neg h]
      cases hs : jsSplit c t with
      | nil => exact absurd hs (jsSplit_ne_nil c t)
      | cons s rest =>
        rw [hs] at ih
        simp only [List.head?, Option.some.injEq] at ih
        subst ih
        simp [List.head?, List.takeWhile_cons, hb]

/-- Splitting a string whose head part avoids the separator. -/
theorem jsSplit_append (c : Char) (l₁ l₂ : List Char) (h : c ∉ l₁) :
    jsSplit c (l₁ ++ c :: l₂) = l₁ :: jsSplit c l₂ := by
  induction l₁ with
  | nil => simp [jsSplit]
  | cons a t ih =>
    have ha : a ≠ c := fun hac => h (hac ▸ List.mem_cons_self a t)
    have ht : c ∉ t := fun hct => h (List.mem_cons_of_mem _ hct)
    have hrec := ih ht
    simp only [List.cons_append, jsSplit, if_neg ha, List.append_eq, hrec]

/-- Splitting a separator-free string returns it whole. -/
theorem jsSplit_not_mem (c : Char) (l : List Char) (h : c ∉ l) :
    jsSplit c l = [l] := by
  induction l with
  | nil => simp [jsSplit]
  | cons a t ih =>
    have ha : a ≠ c := fun hac => h (hac ▸ List.mem_cons_self a t)
    have ht : c ∉ t := fun hct => h (List.mem_cons_of_mem _ hct)
    simp [jsSplit, if_neg ha, ih ht]

/-- First-occurrence decomposition of a list at a member. -/
theorem exists_first_split {c : Char} {l : List Char} (h : c ∈ l) :
    ∃ l₁ l₂, l = l₁ ++ c :: l₂ ∧ c ∉ l₁ := by
  induction l with
  | nil => cases h
  | cons a t ih =>
    by_cases hac : a = c
    · exact ⟨[], t, by simp [hac], by simp⟩
    · rcases List.mem_cons.mp h with h' | h'
      · exact absurd h'.symm hac
      · rcases ih h' with ⟨l₁, l₂, heq, hnm⟩
        refine ⟨a :: l₁, l₂, by rw [heq]; rfl, ?_⟩
        intro hc
        rcases List.mem_cons.mp hc with hc | hc
        · exact hac hc.symm
        · exact hnm hc

/-! ## `hackid-front/src/lib/domain-verification.ts` -/

/-- The `APPROVED_DOMAINS` constant, in source order. -/
def APPROVED_DOMAINS : List (List Char) :=
  [ chars "mlh.io"
  , chars "majorleaguehacking.com"
  , chars ".edu"
  , chars ".edu.ca"
  , chars ".ac.uk"
  , chars ".edu.au"
  , chars "uwaterloo.ca"
  , chars "utoronto.ca"
  , chars "mcmaster.ca"
  , chars "uoft.ca"
  , chars "mit.edu"
  , chars "stanford.edu"
  , chars "berkeley.edu"
  , chars "harvard.edu"
  , chars "princeton.edu"
  , chars "cmu.edu"
  , chars "google.com"
  , chars "microsoft.com"
  , chars "amazon.com"
  , chars "meta.com"
  , chars "apple.com"
  , chars "netflix.com"
  , chars "github.com"
  , chars "stripe.com"
  , chars "shopify.com"
  , chars "mongodb.com"
  , chars "twilio.com"
  , chars "digitalocean.com"
  , chars "vercel.com"
  , chars "cloudflare.com"
  , chars "auth0.com"
  , chars "devpost.com"
  , chars "hackerearth.com"
  , chars "hackclub.com" ]

/-- The `organizationType` field's value space: `"mlh" | "university" | "company"`. -/
inductive OrgType where
  | mlh
  | university
  | company
deriving DecidableEq, Repr

/-- The `VerificationResult` record type of `domain-verification.ts`. -/
structure VerificationResult where
  isVerified : Bool
  domain : Option (List Char)
  matchedPattern : Option (List Char)
  organizationType : Option OrgType
deriving DecidableEq, Repr

/-- `extractDomain(email)`: `null` when the e-mail is empty or has no `'@'`,
otherwise `email.split("@")[1]?.toLowerCase() || null` — the second `split`
segment, lowercased, with the empty string collapsing to `null`. -/
def extractDomain (email : List Char) : Option (List Char) :=
  if email.isEmpty || !hasSub email [ '@' ] then none
  else
    match (jsSplit '@' email)[1]? with
    | none => none
    | some d => if (jsToLower d).isEmpty then none else some (jsToLower d)

/-- `getOrganizationType(matchedPattern)`; note that in the source the
university branch is `includes(".edu") || includes(".ac.") ||
endsWith(".ca") && !includes(".")`. -/
def getOrganizationType (matchedPattern : List Char) : OrgType :=
  if hasSub matchedPattern (chars "mlh")
      || hasSub matchedPattern (chars "majorleaguehacking") then .mlh
  else if hasSub matchedPattern (chars ".edu")
      || hasSub matchedPattern (chars ".ac.")
      || (listEnds matchedPattern (chars ".ca")
          && !hasSub matchedPattern (chars ".")) then .university
  else .company

/-- The pattern loop of `verifyOrganizerDomain`: first pattern that matches
the domain exactly, or as a suffix when the pattern starts with `"."`. -/
def findPattern (domain : List Char) : List (List Char) → Option (List Char)
  | [] => none
  | p :: rest =>
    if domain = p then some p
    else if listStarts p [ '.' ] && listEnds domain p then some p
    else findPattern domain rest

/-- `verifyOrganizerDomain(email)`. -/
def verifyOrganizerDomain (email : List Char) : VerificationResult :=
  match extractDomain email with
  | none =>
    { isVerified := false, domain := none
      matchedPattern := none, organizationType := none }
  | some domain =>
    match findPattern domain APPROVED_DOMAINS with
    | some p =>
      { isVerified := true, domain := some domain
        matchedPattern := some p, organizationType := some (getOrganizationType p) }
    | none =>
      { isVerified := false, domain := some domain
        matchedPattern := none, organizationType := none }

/-- `getRoleName(result)`. -/
def getRoleName (result : VerificationResult) : String :=
  if !result.isVerified then "Guest"
  else
    match result.organizationType with
    | some .mlh => "MLH Staff"
    | some .university => "University Organizer"
    | some .company => "Sponsor"
    | none => "Verified Organizer"

/-! ### Facts about `extractDomain` and `verifyOrganizerDomain` -/

/-- Dropping up to the first occurrence of a character. -/
theorem dropWhile_first (c : Char) (l₁ l₂ : List Char) (h : c ∉ l₁) :
    (l₁ ++ c :: l₂).dropWhile (fun a => a != c) = c :: l₂ := by
  induction l₁ with
  | nil => simp [List.dropWhile_cons]
  | cons a t ih =>
    have ha : (a != c) = true := bne_iff_ne.mpr
      (fun hac => h (hac ▸ List.mem_cons_self a t))
    have ht : c ∉ t := fun hct => h (List.mem_cons_of_mem _ hct)
    simp [List.dropWhile_cons, ha, ih ht]

/-- Extraction on an e-mail whose local part is `'@'`-free and whose domain
part is `'@'`-free and nonempty returns the lowercased domain part. -/
theorem extractDomain_append (localPart d : List Char) (h : '@' ∉ localPart)
    (hd : '@' ∉ d) (hne : d ≠ []) :
    extractDomain (localPart ++ '@' :: d) = some (jsToLower d) := by
  have hne' : localPart ++ '@' :: d ≠ [] := by simp
  have hmem : '@' ∈ localPart ++ '@' :: d :=
    List.mem_append_right _ (List.mem_cons_self _ _)
  have hsub : hasSub (localPart ++ '@' :: d) [ '@' ] = true :=
    (hasSub_single _ _).mpr hmem
  have hsplit : jsSplit '@' (localPart ++ '@' :: d) = localPart :: [d] := by
    rw [jsSplit_append '@' localPart d h, jsSplit_not_mem '@' d hd]
  have hlow : (jsToLower d).isEmpty = false := by
    cases d with
    | nil => exact absurd rfl hne
    | cons a t => simp [jsToLower]
  rw [extractDomain, if_neg (by simp [hsub, hne'])]
  simp [hsplit, hlow]

/-- The shape of `verifyOrganizerDomain` on such e-mails, as a match on the
pattern search. -/
theorem verifyOrganizerDomain_append (localPart d : List Char)
    (h : '@' ∉ localPart) (hd : '@' ∉ d) (hne : d ≠ []) :
    verifyOrganizerDomain (localPart ++ '@' :: d) =
      match findPattern (jsToLower d) APPROVED_DOMAINS with
      | some p =>
        { isVerified := true, domain := some (jsToLower d)
          matchedPattern := some p
          organizationType := some (getOrganizationType p) }
      | none =>
        { isVerified := false, domain := some (jsToLower d)
          matchedPattern := none, organizationType := none } := by
  rw [verifyOrganizerDomain, extractDomain_append localPart d h hd hne]

/-- The `domain` field of the result is exactly `extractDomain`. -/
theorem verifyOrganizerDomain_domain (email : List Char) :
    (verifyOrganizerDomain email).domain = extractDomain email := by
  rw [verifyOrganizerDomain]
  cases extractDomain email with
  | none => rfl
  | some d =>
    dsimp only
    cases findPattern d APPROVED_DOMAINS <;> rfl

/-- Characterization of a `null` extracted domain: the e-mail has no `'@'`,
or the segment between the first `'@'` and the next `'@'` (or the end of
the string) is empty. -/
theorem extractDomain_none_iff (email : List Char) :
    extractDomain email = none ↔
      ('@' ∉ email ∨
        ((email.dropWhile (fun a => a != '@')).drop 1).takeWhile
          (fun a => a != '@') = []) := by
  by_cases hmem : '@' ∈ email
  · obtain ⟨l₁, l₂, rfl, hl₁⟩ := exists_first_split hmem
    have hsub : hasSub (l₁ ++ '@' :: l₂) [ '@' ] = true :=
      (hasSub_single _ _).mpr hmem
    have hne' : l₁ ++ '@' :: l₂ ≠ [] := by simp
    have hsplit : jsSplit '@' (l₁ ++ '@' :: l₂) = l₁ :: jsSplit '@' l₂ :=
      jsSplit_append '@' l₁ l₂ hl₁
    have hhead : (jsSplit '@' l₂).head? =
        some (l₂.takeWhile (fun a => a != '@')) := jsSplit_head '@' l₂
    have hdrop : (l₁ ++ '@' :: l₂).dropWhile (fun a => a != '@') = '@' :: l₂ :=
      dropWhile_first '@' l₁ l₂ hl₁
    rw [extractDomain, if_neg (by simp [hsub, hne'])]
    have hidx : (jsSplit '@' (l₁ ++ '@' :: l₂))[1]? =
        some (l₂.takeWhile (fun a => a != '@')) := by
      rw [hsplit]
      cases hs : jsSplit '@' l₂ with
      | nil => exact absurd hs (jsSplit_ne_nil _ _)
      | cons s rest =>
        rw [hs] at hhead
        simp only [List.head?, Option.some.injEq] at hhead
        simp [hhead]
    rw [hidx]
    simp only [hdrop, List.drop_succ_cons, List.drop_zero, hmem,
      not_true_eq_false, false_or]
    constructor
    · intro hif
      by_contra hne
      have : (jsToLower (l₂.takeWhile (fun a => a != '@'))).isEmpty = false := by
        cases hc : l₂.takeWhile (fun a => a != '@') with
        | nil => exact absurd hc hne
        | cons a t => simp [jsToLower]
      rw [if_neg (by simp [this])] at hif
      exact Option.some_ne_none _ hif
    · intro hnil
      rw [hnil]
      simp [jsToLower]
  · have hsub : hasSub email [ '@' ] = false := by
      cases hc : hasSub email [ '@' ] with
      | false => rfl
      | true => exact absurd ((hasSub_single _ _).mp hc) hmem
    rw [extractDomain, if_pos (by simp [hsub])]
    simp [hmem]

/-- Claim C10's counterexample input: the e-mail `"a@@b"`. -/
def emailAtAt : List Char := chars "a@@b"

/-- Claim C9: every exact-match approved domain ending in `.ca`
(`uwaterloo.ca`, `utoronto.ca`, `mcmaster.ca`, `uoft.ca`) verifies with
`organizationType = company`, so `getRoleName` yields `"Sponsor"` and never
`"University Organizer"`; indeed the university branch's condition
`endsWith(".ca") && !includes(".")` is false for every pattern that ends in
`".ca"`. -/
theorem ca_exact_domains_are_company (localPart : List Char)
    (h : '@' ∉ localPart) :
    (∀ d ∈ [chars "uwaterloo.ca", chars "utoronto.ca",
            chars "mcmaster.ca", chars "uoft.ca"],
      (verifyOrganizerDomain (localPart ++ '@' :: d)).isVerified = true ∧
      (verifyOrganizerDomain (localPart ++ '@' :: d)).organizationType =
        some OrgType.company ∧
      getRoleName (verifyOrganizerDomain (localPart ++ '@' :: d)) = "Sponsor") ∧
    (∀ p : List Char, listEnds p (chars ".ca") = true →
      (listEnds p (chars ".ca") && !hasSub p (chars ".")) = false) := by
  constructor
  · intro d hd
    have hcases := hd
    simp only [List.mem_cons, List.mem_singleton, List.not_mem_nil,
      or_false] at hcases
    rcases hcases with rfl | rfl | rfl | rfl <;>
      rw [verifyOrganizerDomain_append localPart _ h (by decide) (by decide)] <;>
      refine ⟨by decide, by decide, by decide⟩
  · intro p hp
    have hdot : '.' ∈ p :=
      listEnds_mem hp '.' (by decide)
    have : hasSub p (chars ".") = true := (hasSub_single p '.').mpr hdot
    simp [this]

/-- Witness for `ca_exact_domains_are_company` at local part `"alice"` and
domain `"uwaterloo.ca"`. -/
theorem ca_exact_domains_are_company_witness :
    (verifyOrganizerDomain
      (chars "alice" ++ '@' :: chars "uwaterloo.ca")).isVerified = true ∧
    getRoleName (verifyOrganizerDomain
      (chars "alice" ++ '@' :: chars "uwaterloo.ca")) = "Sponsor" := by
  have h := (ca_exact_domains_are_company (chars "alice") (by decide)).1
    (chars "uwaterloo.ca") (by decide)
  exact ⟨h.1, h.2.2⟩

/-- Claim C10 as stated is false at the e-mail `"a@@b"`: the extracted
domain is `null` although the e-mail contains `'@'` and the part after its
first `'@'` is nonempty (`"@b"`). -/
theorem domain_null_counterexample :
    (verifyOrganizerDomain emailAtAt).domain = none ∧
    '@' ∈ emailAtAt ∧
    (emailAtAt.dropWhile (fun a => a != '@')).drop 1 ≠ [] := by
  refine ⟨?_, by decide, by decide⟩
  rw [verifyOrganizerDomain_domain]
  decide

/-- Claim C10, amended: `isVerified` is `true` iff `matchedPattern` is
non-null iff `organizationType` is non-null; `domain` is null exactly when
the e-mail has no `'@'` or the segment between the first `'@'` and the next
`'@'` (or the end) is empty; and a null domain forces `isVerified = false`. -/
theorem verification_result_invariants (email : List Char) :
    ((verifyOrganizerDomain email).isVerified = true ↔
      (verifyOrganizerDomain email).matchedPattern ≠ none) ∧
    ((verifyOrganizerDomain email).isVerified = true ↔
      (verifyOrganizerDomain email).organizationType ≠ none) ∧
    ((verifyOrganizerDomain email).domain = none ↔
      ('@' ∉ email ∨
        ((email.dropWhile (fun a => a != '@')).drop 1).takeWhile
          (fun a => a != '@') = [])) ∧
    ((verifyOrganizerDomain email).domain = none →
      (verifyOrganizerDomain email).isVerified = false) := by
  have hdom := verifyOrganizerDomain_domain email
  have hshape : ((verifyOrganizerDomain email).isVerified = true ↔
        (verifyOrganizerDomain email).matchedPattern ≠ none) ∧
      ((verifyOrganizerDomain email).isVerified = true ↔
        (verifyOrganizerDomain email).organizationType ≠ none) ∧
      ((verifyOrganizerDomain email).domain = none →
        (verifyOrganizerDomain email).isVerified = false) := by
    rw [verifyOrganizerDomain]
    cases extractDomain email with
    | none => simp
    | some d =>
      dsimp only
      cases findPattern d APPROVED_DOMAINS <;> simp
  refine ⟨hshape.1, hshape.2.1, ?_, hshape.2.2⟩
  rw [hdom]
  exact extractDomain_none_iff email

/-- Witness for `verification_result_invariants` at the e-mail `"a@"`. -/
theorem verification_result_invariants_witness :
    (verifyOrganizerDomain (chars "a@")).isVerified = false := by
  refine (verification_result_invariants (chars "a@")).2.2.2 ?_
  rw [verifyOrganizerDomain_domain]
  decide

/-! ## `hackid-front/src/types.ts` and `hackid-front/src/app/actions.ts` -/

/-- The frontend `Verdict` enumeration of `types.ts`. -/
inductive Verdict where
  | INVALID
  | LEAN_INVALID
  | LEAN_VALID
  | VALID
deriving DecidableEq, Repr

/-- The string value carried by each `Verdict` enumeration member. -/
def verdictToString : Verdict → String
  | .INVALID => "INVALID"
  | .LEAN_INVALID => "LEAN INVALID"
  | .LEAN_VALID => "LEAN VALID"
  | .VALID => "VALID"

/-- A JavaScript value thrown inside a `try` block: an `Error` object with a
message, or any other value. -/
inductive JsThrown where
  | errObj (message : String)
  | other
deriving DecidableEq, Repr

/-- JavaScript `x || dflt` on an optional string: `undefined`/`null` and the
empty string are falsy. -/
def jsOrStr (v : Option String) (dflt : String) : String :=
  match v with
  | none => dflt
  | some s => if s = "" then dflt else s

/-- JavaScript `x || undefined` on an optional string. -/
def jsOrUndef (v : Option String) : Option String :=
  match v with
  | none => none
  | some s => if s = "" then none else some s

/-- A `hackathons` row as returned by the database (`prisma` model from the
migration in the repository); the `TIMESTAMPTZ` columns are carried as
their `toISOString()` rendering, which is all `getHackathons` uses. -/
structure HackRow where
  hackathon_id : String
  name : String
  devpost_url : String
  start_time : String
  end_time : String
  projectCount : Nat
deriving DecidableEq, Repr

/-- The `Hackathon` interface of `types.ts`. -/
structure Hackathon where
  id : String
  name : String
  devpost_url : String
  start_time : String
  end_time : String
  project_count : Nat
deriving DecidableEq, Repr

/-- The parts of a project row's `data` JSONB blob read by
`getProjectsByHackathon`: `score`, `status`, `description`, and
`findings.team.matched`. Absent JSON fields are `none`. -/
structure ProjectData where
  score : Option Int
  status : Option String
  description : Option String
  findingsTeamMatched : List String
deriving DecidableEq, Repr

/-- A `projects` row as returned by the database. -/
structure ProjectRow where
  project_id : String
  hackathon_id : String
  title : Option String
  github_repo_link : Option String
  data : Option ProjectData
deriving DecidableEq, Repr

/-- The record built per project by `getProjectsByHackathon`. The source
assigns `verdict: (p.data as any)?.status || "UNKNOWN"`, a raw string that
the `as any` cast lets bypass the `Verdict` enumeration, so the field is a
`String` here. -/
structure ProjectResult where
  id : String
  hackathon_id : String
  name : String
  submitter : String
  score : Int
  verdict : String
  github_link : Option String
  description : Option String
deriving DecidableEq, Repr

/-- The row-to-record mapping inside `getHackathons`. -/
def mapHackathon (h : HackRow) : Hackathon :=
  { id := h.hackathon_id
    name := h.name
    devpost_url := h.devpost_url
    start_time := h.start_time
    end_time := h.end_time
    project_count := h.projectCount }

/-- The row-to-record mapping inside `getProjectsByHackathon`. -/
def mapProject (p : ProjectRow) : ProjectResult :=
  { id := p.project_id
    hackathon_id := p.hackathon_id
    name := jsOrStr p.title "Untitled Project"
    submitter := jsOrStr (p.data.bind (fun d => d.findingsTeamMatched.head?))
      "Unknown Submitter"
    score := match p.data.bind (fun d => d.score) with
      | none => 0
      | some s => if s = 0 then 0 else s
    verdict := jsOrStr (p.data.bind (fun d => d.status)) "UNKNOWN"
    github_link := jsOrUndef p.github_repo_link
    description := jsOrUndef (p.data.bind (fun d => d.description)) }

/-- `getHackathons` of `actions.ts`, with the fallible database call made
an explicit `Except` input; the `catch` branch returns `[]`. -/
def getHackathons (dbRes : Except JsThrown (List HackRow)) : List Hackathon :=
  match dbRes with
  | .error _ => []
  | .ok rows => rows.map mapHackathon

/-- `getProjectsByHackathon` of `actions.ts`; the `catch` branch
returns `[]`. -/
def getProjectsByHackathon (dbRes : Except JsThrown (List ProjectRow)) :
    List ProjectResult :=
  match dbRes with
  | .error _ => []
  | .ok rows => rows.map mapProject

/-- The result record of `scanUrl`. -/
structure ScanResult where
  success : Bool
  message : String
deriving DecidableEq, Repr

/-- An HTTP response as seen by `scanUrl`: its `ok` flag and status code. -/
structure HttpResponse where
  ok : Bool
  status : Nat
deriving DecidableEq, Repr

/-- `scanUrl` of `actions.ts`: a non-`ok` response throws
`API request failed with status N`, and the `catch` branch turns any thrown
value into `success: false` with the `Error`'s message, or
`"Unknown error occurred"` for a non-`Error` throw. -/
def scanUrl (resp : Except JsThrown HttpResponse) : ScanResult :=
  match resp with
  | .error (.errObj m) => { success := false, message := m }
  | .error .other => { success := false, message := "Unknown error occurred" }
  | .ok r =>
    if !r.ok then
      { success := false
        message := "API request failed with status " ++ toString r.status }
    else { success := true, message := "Scan started successfully" }

/-- A stored project row whose `data` blob is absent. -/
def rowNoData : ProjectRow :=
  { project_id := "p1", hackathon_id := "h1"
    title := some "Demo", github_repo_link := none, data := none }

/-- Claim C4 as stated is false on the code: the record produced by
`getProjectsByHackathon` for a row with no stored verdict carries the open
string `"UNKNOWN"`, which is none of `VERIFIED`, `FLAGGED`,
`DISQUALIFIED` — and none of the four members of the frontend `Verdict`
enumeration either. -/
theorem verdict_open_string_counterexample :
    (getProjectsByHackathon (Except.ok [rowNoData])).map
      (fun r => r.verdict) = ["UNKNOWN"] ∧
    ¬("UNKNOWN" = "VERIFIED" ∨ "UNKNOWN" = "FLAGGED" ∨
      "UNKNOWN" = "DISQUALIFIED") ∧
    ¬("UNKNOWN" = verdictToString Verdict.INVALID ∨
      "UNKNOWN" = verdictToString Verdict.LEAN_INVALID ∨
      "UNKNOWN" = verdictToString Verdict.LEAN_VALID ∨
      "UNKNOWN" = verdictToString Verdict.VALID) := by
  refine ⟨rfl, by decide, by decide⟩

/-- Claim C4, amended: the frontend `Verdict` type is a closed enumeration,
but its four values are `INVALID`, `LEAN INVALID`, `LEAN VALID`, `VALID`
(not `VERIFIED`/`FLAGGED`/`DISQUALIFIED`), and the verdict attached by
`getProjectsByHackathon` is an open string: the stored `data.status` when
present and truthy, else the literal `"UNKNOWN"`. -/
theorem verdict_enumeration_amended :
    (∀ v : Verdict,
      verdictToString v = "INVALID" ∨ verdictToString v = "LEAN INVALID" ∨
      verdictToString v = "LEAN VALID" ∨ verdictToString v = "VALID") ∧
    (∀ p : ProjectRow,
      (mapProject p).verdict = "UNKNOWN" ∨
      ∃ d s, p.data = some d ∧ d.status = some s ∧
        (mapProject p).verdict = s) := by
  constructor
  · intro v
    cases v <;> simp [verdictToString]
  · intro p
    cases hpd : p.data with
    | none => left; simp [mapProject, hpd, jsOrStr]
    | some d =>
      cases hs : d.status with
      | none => left; simp [mapProject, hpd, hs, jsOrStr]
      | some s =>
        by_cases hse : s = ""
        · left
          simp [mapProject, hpd, hs, jsOrStr, hse]
        · right
          exact ⟨d, s, rfl, hs, by simp [mapProject, hpd, hs, jsOrStr, hse]⟩

/-- Claim C6: a provider or database failure inside `getHackathons`,
`getProjectsByHackathon` or `scanUrl` never propagates: the operation
returns an empty list, or a failure record with `success = false` and a
message, and a non-`ok` HTTP response likewise degrades to a failure
record. -/
theorem failing_calls_degrade :
    (∀ e : JsThrown, getHackathons (Except.error e) = []) ∧
    (∀ e : JsThrown, getProjectsByHackathon (Except.error e) = []) ∧
    (∀ m : String, scanUrl (Except.error (JsThrown.errObj m)) =
      { success := false, message := m }) ∧
    (scanUrl (Except.error JsThrown.other) =
      { success := false, message := "Unknown error occurred" }) ∧
    (∀ r : HttpResponse, r.ok = false →
      scanUrl (Except.ok r) =
        { success := false
          message := "API request failed with status " ++ toString r.status }) := by
  refine ⟨fun e => rfl, fun e => rfl, fun m => rfl, rfl, fun r hr => ?_⟩
  simp [scanUrl, hr]

/-- Witness for `failing_calls_degrade` at a concrete failed response. -/
theorem failing_calls_degrade_witness :
    scanUrl (Except.ok { ok := false, status := 500 }) =
      { success := false, message := "API request failed with status 500" } :=
  failing_calls_degrade.2.2.2.2 { ok := false, status := 500 } rfl

/-! ## The verification pipeline

The backend pipeline (claim scoring, eligibility checking, decision
engine) is documented in the repository READMEs but its Python sources
(`backend/pipeline.py`, `backend/agents/claim_extractor.py`,
`backend/agents/github_validator.py`) are not part of this tree, so the
definitions below are modelled from the specification. -/

/-- Modelled from the spec: the per-claim evidence outcome
`CONFIRMED | REFUTED | INCONCLUSIVE` (the missing backend's claim
comparison result). -/
inductive Outcome where
  | CONFIRMED
  | REFUTED
  | INCONCLUSIVE
deriving DecidableEq, Repr

/-- Modelled from the spec: claim importance
`CORE(1.0) | SECONDARY(0.6) | MINOR(0.3)`, a closed enumeration. -/
inductive Importance where
  | CORE
  | SECONDARY
  | MINOR
deriving DecidableEq, Repr

/-- Modelled from the spec: the claim importance weights, as exact
rationals. -/
def weight : Importance → ℚ
  | .CORE => 1
  | .SECONDARY => 3 / 5
  | .MINOR => 3 / 10

/-- Modelled from the spec: a claim with its resolved final outcome, the
shape consumed by the Comparator/Scorer and the Decision Engine. -/
structure SpecClaim where
  claimId : Nat
  importance : Importance
  outcome : Outcome
deriving DecidableEq, Repr

/-- Modelled from the spec: the scoring indicator — `1` for `CONFIRMED`,
`0` for `REFUTED`, a configurable neutral value (default `0.5`) for
`INCONCLUSIVE`. -/
def indicator (neutral : ℚ) : Outcome → ℚ
  | .CONFIRMED => 1
  | .REFUTED => 0
  | .INCONCLUSIVE => neutral

/-- Modelled from the spec: the total importance weight of a claim set. -/
def totalWeight (cs : List SpecClaim) : ℚ :=
  (cs.map (fun c => weight c.importance)).sum

/-- Modelled from the spec: the weighted indicator sum of a claim set. -/
def weightedSum (neutral : ℚ) (cs : List SpecClaim) : ℚ :=
  (cs.map (fun c => weight c.importance * indicator neutral c.outcome)).sum

/-- Modelled from the spec: the aggregate score
`Σ(weight_i · indicator_i) / Σ(weight_i)`; a claim set with zero total
weight (only possible for the empty set, which extraction never produces)
scores `0`. -/
def aggregateScore (neutral : ℚ) (cs : List SpecClaim) : ℚ :=
  if totalWeight cs = 0 then 0 else weightedSum neutral cs / totalWeight cs

/-- Modelled from the spec: the eligibility statuses
`OK | PRE_EXISTING_CODE | NO_COMMITS`. -/
inductive EligStatus where
  | OK
  | PRE_EXISTING_CODE
  | NO_COMMITS
deriving DecidableEq, Repr

/-- Modelled from the spec: one `{sha, timestamp}` entry of the
`CommitTimeline` (timestamps as integer epoch seconds). -/
structure CommitEntry where
  sha : String
  timestamp : Int
deriving DecidableEq, Repr

/-- Modelled from the spec: the `EligibilityResult`
`{status, violating_commits}`. -/
structure EligibilityResult where
  status : EligStatus
  violating_commits : List String
deriving DecidableEq, Repr

/-- Modelled from the spec: the Eligibility Checker — `NO_COMMITS` on an
empty timeline, `PRE_EXISTING_CODE` when any commit is strictly before
`startTime` minus the tolerance (default zero), `OK` otherwise; `endTime`
is part of the window but commits after it do not by themselves
disqualify. -/
def eligibilityCheck (timeline : List CommitEntry)
    (startTime endTime tolerance : Int) : EligibilityResult :=
  if timeline.isEmpty then { status := .NO_COMMITS, violating_commits := [] }
  else if (timeline.filter
      (fun c => c.timestamp < startTime - tolerance)).isEmpty then
    { status := .OK, violating_commits := [] }
  else
    { status := .PRE_EXISTING_CODE
      violating_commits :=
        (timeline.filter
          (fun c => c.timestamp < startTime - tolerance)).map
          (fun c => c.sha) }

/-- Modelled from the spec: the three terminal verdicts of the pipeline. -/
inductive FinalVerdict where
  | VERIFIED
  | FLAGGED
  | DISQUALIFIED
deriving DecidableEq, Repr

/-- Modelled from the spec: whether some claim of importance `CORE` is
`REFUTED`. -/
def anyRefutedCore (cs : List SpecClaim) : Bool :=
  cs.any (fun c => c.importance == .CORE && c.outcome == .REFUTED)

/-- Modelled from the spec: the Decision Engine — `DISQUALIFIED` when
eligibility is not `OK`; else `FLAGGED` when the aggregate score is below
`0.6` or some `CORE` claim is `REFUTED`; else `VERIFIED`. -/
def decisionEngine (score : ℚ) (cs : List SpecClaim)
    (elig : EligibilityResult) : FinalVerdict :=
  if elig.status ≠ .OK then .DISQUALIFIED
  else if score < 3 / 5 ∨ anyRefutedCore cs = true then .FLAGGED
  else .VERIFIED

/-- Modelled from the spec: the hackathon event window
`[start_time, end_time]`. -/
structure EventWindow where
  startTime : Int
  endTime : Int
deriving DecidableEq, Repr

/-- Modelled from the spec: the immutable `SubmissionRecord` input. -/
structure SubmissionRecord where
  id : String
  title : String
  narrative : String
  techTags : List String
  repoUrl : String
  team : List String
deriving DecidableEq, Repr

/-- Modelled from the spec: the evidence gathered for one claim — the
Tier-1 outcome and, when Tier-2 ran, its outcome. -/
structure ClaimEvidence where
  claimId : Nat
  importance : Importance
  tier1 : Outcome
  tier2 : Option Outcome
deriving DecidableEq, Repr

/-- Modelled from the spec: the Comparator's precedence — the Tier-2
outcome if present and not `INCONCLUSIVE`; else the Tier-1 outcome if not
`INCONCLUSIVE`; else `INCONCLUSIVE`. -/
def resolveOutcome (e : ClaimEvidence) : Outcome :=
  match e.tier2 with
  | some o =>
    if o ≠ .INCONCLUSIVE then o
    else if e.tier1 ≠ .INCONCLUSIVE then e.tier1
    else .INCONCLUSIVE
  | none =>
    if e.tier1 ≠ .INCONCLUSIVE then e.tier1
    else .INCONCLUSIVE

/-- Modelled from the spec: all recorded provider responses for one
submission — the extracted claims with their gathered evidence, and the
commit timeline fetched once per run. -/
structure ProviderResponses where
  evidence : List ClaimEvidence
  timeline : List CommitEntry
deriving DecidableEq, Repr

/-- Modelled from the spec: the `VerificationReport`, the pipeline's only
persisted output. -/
structure VerificationReport where
  submission_id : String
  claims : List SpecClaim
  score : ℚ
  eligibility : EligibilityResult
  verdict : FinalVerdict
deriving DecidableEq, Repr

/-- Modelled from the spec: `verify(SubmissionRecord, eventWindow)` with
the recorded provider responses as an explicit input; neutral indicator
value `0.5` and eligibility tolerance `0`, the documented defaults. -/
def verify (s : SubmissionRecord) (resp : ProviderResponses)
    (w : EventWindow) : VerificationReport :=
  let cs := resp.evidence.map
    (fun e => { claimId := e.claimId, importance := e.importance
                outcome := resolveOutcome e : SpecClaim })
  let sc := aggregateScore (1 / 2) cs
  let elig := eligibilityCheck resp.timeline w.startTime w.endTime 0
  { submission_id := s.id, claims := cs, score := sc
    eligibility := elig, verdict := decisionEngine sc cs elig }

/-- Modelled from the spec: `verifyBatch([SubmissionRecord], eventWindow,
concurrency)`; the environment of recorded provider responses is keyed by
submission, and the concurrency bound is a backpressure policy with no
effect on the output. -/
def verifyBatch (subs : List SubmissionRecord)
    (env : SubmissionRecord → ProviderResponses) (w : EventWindow)
    (concurrency : Nat) : List VerificationReport :=
  subs.map (fun s => verify s (env s) w)

/-- Serialization of an eligibility status. -/
def eligStatusToString : EligStatus → String
  | .OK => "OK"
  | .PRE_EXISTING_CODE => "PRE_EXISTING_CODE"
  | .NO_COMMITS => "NO_COMMITS"

/-- Serialization of a final verdict. -/
def finalVerdictToString : FinalVerdict → String
  | .VERIFIED => "VERIFIED"
  | .FLAGGED => "FLAGGED"
  | .DISQUALIFIED => "DISQUALIFIED"

/-- Serialization of an outcome. -/
def outcomeToString : Outcome → String
  | .CONFIRMED => "CONFIRMED"
  | .REFUTED => "REFUTED"
  | .INCONCLUSIVE => "INCONCLUSIVE"

/-- Serialization of an importance level. -/
def importanceToString : Importance → String
  | .CORE => "CORE"
  | .SECONDARY => "SECONDARY"
  | .MINOR => "MINOR"

/-- Modelled from the spec: the report's export as a structured record;
rendered here as a flat string so that byte-identity of two exports is
string equality. -/
def serializeReport (r : VerificationReport) : String :=
  "report(id=" ++ r.submission_id ++
    ";claims=" ++ String.intercalate ","
      (r.claims.map (fun c => toString c.claimId ++ ":" ++
        importanceToString c.importance ++ ":" ++ outcomeToString c.outcome)) ++
    ";score=" ++ toString r.score.num ++ "/" ++ toString r.score.den ++
    ";eligibility=" ++ eligStatusToString r.eligibility.status ++
    ";violating=" ++ String.intercalate "," r.eligibility.violating_commits ++
    ";verdict=" ++ finalVerdictToString r.verdict ++ ")"

/-! ### Facts about the eligibility checker -/

/-- The eligibility status as a case split on the timeline. -/
theorem eligibilityCheck_status (timeline : List CommitEntry)
    (s e t : Int) :
    (eligibilityCheck timeline s e t).status =
      if timeline = [] then EligStatus.NO_COMMITS
      else if ∀ c ∈ timeline, s - t ≤ c.timestamp then EligStatus.OK
      else EligStatus.PRE_EXISTING_CODE := by
  by_cases h : timeline = []
  · subst h; simp [eligibilityCheck]
  · have hne : timeline.isEmpty ≠ true := fun hh => h (List.isEmpty_iff.mp hh)
    rw [eligibilityCheck, if_neg hne, if_neg h]
    by_cases hall : ∀ c ∈ timeline, s - t ≤ c.timestamp
    · have hf : timeline.filter (fun c => c.timestamp < s - t) = [] :=
        List.filter_eq_nil_iff.mpr
          (fun c hc => by simpa using not_lt.mpr (hall c hc))
      rw [if_pos hall]
      simp [hf]
    · push_neg at hall
      obtain ⟨c, hc, hlt⟩ := hall
      have hf : timeline.filter (fun c => c.timestamp < s - t) ≠ [] := by
        intro hh
        have hmem := List.filter_eq_nil_iff.mp hh c hc
        simp only [decide_eq_true_eq] at hmem
        exact hmem hlt
      have hemp : (timeline.filter
          (fun c => c.timestamp < s - t)).isEmpty ≠ true :=
        fun hh => hf (List.isEmpty_iff.mp hh)
      rw [if_neg hemp, if_neg (by push_neg; exact ⟨c, hc, hlt⟩)]

/-- Claim C3: with the default tolerance `0`, the eligibility status is
`NO_COMMITS` exactly on an empty timeline, `PRE_EXISTING_CODE` exactly
when some commit is strictly before `startTime`, and `OK` otherwise; and
appending a commit dated after `endTime` to a timeline that checks `OK`
leaves the status `OK`. -/
theorem eligibility_characterization (timeline : List CommitEntry)
    (startTime endTime : Int) :
    ((eligibilityCheck timeline startTime endTime 0).status =
        EligStatus.NO_COMMITS ↔ timeline = []) ∧
    ((eligibilityCheck timeline startTime endTime 0).status =
        EligStatus.PRE_EXISTING_CODE ↔
      timeline ≠ [] ∧ ∃ c ∈ timeline, c.timestamp < startTime) ∧
    ((eligibilityCheck timeline startTime endTime 0).status =
        EligStatus.OK ↔
      timeline ≠ [] ∧ ∀ c ∈ timeline, startTime ≤ c.timestamp) ∧
    (∀ c : CommitEntry, startTime ≤ endTime → endTime < c.timestamp →
      (eligibilityCheck timeline startTime endTime 0).status =
        EligStatus.OK →
      (eligibilityCheck (timeline ++ [c]) startTime endTime 0).status =
        EligStatus.OK) := by
  have hst : (eligibilityCheck timeline startTime endTime 0).status =
      if timeline = [] then EligStatus.NO_COMMITS
      else if ∀ c ∈ timeline, startTime ≤ c.timestamp then EligStatus.OK
      else EligStatus.PRE_EXISTING_CODE := by
    rw [eligibilityCheck_status]
    simp only [sub_zero]
  refine ⟨?_, ?_, ?_, ?_⟩
  · rw [hst]
    by_cases h : timeline = []
    · simp [h]
    · rw [if_neg h]
      simp only [h, iff_false]
      split <;> simp
  · rw [hst]
    by_cases h : timeline = []
    · simp [h]
    · simp only [if_neg h, h, ne_eq, not_false_eq_true, true_and]
      by_cases hall : ∀ c ∈ timeline, startTime ≤ c.timestamp
      · rw [if_pos hall]
        refine iff_of_false (by decide) ?_
        push_neg
        exact hall
      · rw [if_neg hall]
        push_neg at hall
        simpa using hall
  · rw [hst]
    by_cases h : timeline = []
    · simp [h]
    · simp only [if_neg h, h, ne_eq, not_false_eq_true, true_and]
      by_cases hall : ∀ c ∈ timeline, startTime ≤ c.timestamp
      · rw [if_pos hall]; simpa using hall
      · rw [if_neg hall]; simpa using hall
  · intro c hwin hlate hok
    rw [hst] at hok
    by_cases h : timeline = []
    · rw [if_pos h] at hok; exact absurd hok (by decide)
    · rw [if_neg h] at hok
      by_cases hall : ∀ x ∈ timeline, startTime ≤ x.timestamp
      · rw [eligibilityCheck_status]
        have hne : timeline ++ [c] ≠ [] := by simp
        rw [if_neg hne, if_pos ?_]
        intro x hx
        rcases List.mem_append.mp hx with hx | hx
        · simpa using hall x hx
        · rw [List.mem_singleton.mp hx]
          have : startTime ≤ c.timestamp :=
            le_of_lt (lt_of_le_of_lt hwin hlate)
          simpa using this
      · rw [if_neg hall] at hok; exact absurd hok (by decide)

/-- Witness for `eligibility_characterization`: a one-commit timeline
inside the window stays `OK` after a post-deadline commit is appended. -/
theorem eligibility_characterization_witness :
    (eligibilityCheck [{ sha := "c1", timestamp := 5 }] 0 10 0).status =
      EligStatus.OK ∧
    (eligibilityCheck ([{ sha := "c1", timestamp := 5 }] ++
      [{ sha := "c2", timestamp := 99 }]) 0 10 0).status = EligStatus.OK := by
  have h := eligibility_characterization
    [{ sha := "c1", timestamp := 5 }] 0 10
  have hok : (eligibilityCheck [{ sha := "c1", timestamp := 5 }] 0 10 0).status =
      EligStatus.OK := h.2.2.1.mpr (by decide)
  exact ⟨hok, h.2.2.2 { sha := "c2", timestamp := 99 } (by decide)
    (by decide) hok⟩

/-! ### Facts about the scorer and the decision engine -/

theorem weight_pos (i : Importance) : 0 < weight i := by
  cases i <;> norm_num [weight]

theorem totalWeight_pos {cs : List SpecClaim} (h : cs ≠ []) :
    0 < totalWeight cs := by
  cases cs with
  | nil => exact absurd rfl h
  | cons c t =>
    have h1 : 0 < weight c.importance := weight_pos _
    have h2 : 0 ≤ (t.map (fun c => weight c.importance)).sum := by
      refine List.sum_nonneg ?_
      intro x hx
      obtain ⟨a, _, rfl⟩ := List.mem_map.mp hx
      exact le_of_lt (weight_pos _)
    rw [totalWeight]
    simp only [List.map_cons, List.sum_cons]
    linarith

theorem indicator_nonneg {neutral : ℚ} (h0 : 0 ≤ neutral) (o : Outcome) :
    0 ≤ indicator neutral o := by
  cases o <;> simp [indicator, h0]

theorem indicator_le_one {neutral : ℚ} (h1 : neutral ≤ 1) (o : Outcome) :
    indicator neutral o ≤ 1 := by
  cases o <;> simp [indicator, h1]

theorem weightedSum_nonneg {neutral : ℚ} (h0 : 0 ≤ neutral)
    (cs : List SpecClaim) : 0 ≤ weightedSum neutral cs := by
  refine List.sum_nonneg ?_
  intro x hx
  obtain ⟨c, _, rfl⟩ := List.mem_map.mp hx
  exact mul_nonneg (le_of_lt (weight_pos _)) (indicator_nonneg h0 _)

theorem weightedSum_le_totalWeight {neutral : ℚ} (h1 : neutral ≤ 1)
    (cs : List SpecClaim) : weightedSum neutral cs ≤ totalWeight cs := by
  refine List.sum_le_sum ?_
  intro c _
  exact mul_le_of_le_one_right (le_of_lt (weight_pos _))
    (indicator_le_one h1 _)

/-- Claim C5: for a nonempty claim set and a neutral value in `[0,1]`, the
aggregate score lies in `[0,1]`; an all-`CONFIRMED` set scores exactly
`1`, and an all-`REFUTED` set scores exactly `0`. -/
theorem aggregate_score_bounds (neutral : ℚ) (cs : List SpecClaim)
    (h0 : 0 ≤ neutral) (h1 : neutral ≤ 1) (hne : cs ≠ []) :
    (0 ≤ aggregateScore neutral cs ∧ aggregateScore neutral cs ≤ 1) ∧
    ((∀ c ∈ cs, c.outcome = Outcome.CONFIRMED) →
      aggregateScore neutral cs = 1) ∧
    ((∀ c ∈ cs, c.outcome = Outcome.REFUTED) →
      aggregateScore neutral cs = 0) := by
  have htw : 0 < totalWeight cs := totalWeight_pos hne
  have htw' : ¬ totalWeight cs = 0 := ne_of_gt htw
  rw [aggregateScore, if_neg htw']
  refine ⟨⟨?_, ?_⟩, ?_, ?_⟩
  · exact div_nonneg (weightedSum_nonneg h0 cs) (le_of_lt htw)
  · rw [div_le_one htw]
    exact weightedSum_le_totalWeight h1 cs
  · intro hall
    have heq : weightedSum neutral cs = totalWeight cs := by
      rw [weightedSum, totalWeight]
      congr 1
      refine List.map_congr_left ?_
      intro c hc
      rw [hall c hc]
      simp [indicator]
    rw [heq, div_self htw']
  · intro hall
    have heq : weightedSum neutral cs = 0 := by
      refine List.sum_eq_zero ?_
      intro x hx
      obtain ⟨c, hc, rfl⟩ := List.mem_map.mp hx
      rw [hall c hc]
      simp [indicator]
    rw [heq, zero_div]

/-- Witness for `aggregate_score_bounds`: one `CONFIRMED` core claim
scores `1`, within bounds. -/
theorem aggregate_score_bounds_witness :
    aggregateScore (1 / 2)
      [{ claimId := 0, importance := Importance.CORE
         outcome := Outcome.CONFIRMED }] = 1 ∧
    0 ≤ aggregateScore (1 / 2)
      [{ claimId := 0, importance := Importance.CORE
         outcome := Outcome.CONFIRMED }] := by
  have h := aggregate_score_bounds (1 / 2)
    [{ claimId := 0, importance := Importance.CORE
       outcome := Outcome.CONFIRMED }]
    (by norm_num) (by norm_num) (by simp)
  exact ⟨h.2.1 (by decide), h.1.1⟩

/-- Claim C1: eligibility is a hard gate — whenever the eligibility status
is not `OK`, the decision engine returns `DISQUALIFIED` regardless of the
score and the claim outcomes, and so does the full `verify` pipeline. -/
theorem eligibility_hard_gate :
    (∀ (score : ℚ) (cs : List SpecClaim) (elig : EligibilityResult),
      elig.status ≠ EligStatus.OK →
      decisionEngine score cs elig = FinalVerdict.DISQUALIFIED) ∧
    (∀ (s : SubmissionRecord) (resp : ProviderResponses) (w : EventWindow),
      (verify s resp w).eligibility.status ≠ EligStatus.OK →
      (verify s resp w).verdict = FinalVerdict.DISQUALIFIED) := by
  have hbase : ∀ (score : ℚ) (cs : List SpecClaim) (elig : EligibilityResult),
      elig.status ≠ EligStatus.OK →
      decisionEngine score cs elig = FinalVerdict.DISQUALIFIED := by
    intro score cs elig h
    rw [decisionEngine, if_pos h]
  refine ⟨hbase, ?_⟩
  intro s resp w h
  simp only [verify] at h ⊢
  exact hbase _ _ _ h

/-- Witness for `eligibility_hard_gate`: a `NO_COMMITS` submission is
disqualified even with a perfect score. -/
theorem eligibility_hard_gate_witness :
    decisionEngine 1 [] { status := EligStatus.NO_COMMITS
                          violating_commits := [] } =
      FinalVerdict.DISQUALIFIED :=
  eligibility_hard_gate.1 1 []
    { status := EligStatus.NO_COMMITS, violating_commits := [] } (by decide)

/-- Claim C2: with eligibility `OK`, the verdict is `FLAGGED` exactly when
the score is below `0.6` or some `CORE` claim is `REFUTED`, and `VERIFIED`
exactly otherwise; in particular a single `REFUTED` `CORE` claim forces
`FLAGGED` no matter what the other claims are. -/
theorem flag_threshold_and_core_veto (score : ℚ) (cs : List SpecClaim)
    (elig : EligibilityResult) (h : elig.status = EligStatus.OK) :
    (decisionEngine score cs elig = FinalVerdict.FLAGGED ↔
      (score < 3 / 5 ∨ ∃ c ∈ cs, c.importance = Importance.CORE ∧
        c.outcome = Outcome.REFUTED)) ∧
    (decisionEngine score cs elig = FinalVerdict.VERIFIED ↔
      ¬(score < 3 / 5 ∨ ∃ c ∈ cs, c.importance = Importance.CORE ∧
        c.outcome = Outcome.REFUTED)) ∧
    ((∃ c ∈ cs, c.importance = Importance.CORE ∧
        c.outcome = Outcome.REFUTED) →
      decisionEngine score cs elig = FinalVerdict.FLAGGED) := by
  have hany : anyRefutedCore cs = true ↔
      ∃ c ∈ cs, c.importance = Importance.CORE ∧
        c.outcome = Outcome.REFUTED := by
    simp [anyRefutedCore, List.any_eq_true]
  have hnot : ¬ elig.status ≠ EligStatus.OK := by simp [h]
  rw [decisionEngine, if_neg hnot]
  by_cases hcond : score < 3 / 5 ∨ anyRefutedCore cs = true
  · rw [if_pos hcond]
    rw [hany] at hcond
    exact ⟨iff_of_true rfl hcond,
      iff_of_false (by decide) (not_not_intro hcond), fun _ => rfl⟩
  · rw [if_neg hcond]
    rw [hany] at hcond
    exact ⟨iff_of_false (by decide) hcond, iff_of_true rfl hcond,
      fun hex => absurd (Or.inr hex) hcond⟩

/-- Witness for `flag_threshold_and_core_veto`: a refuted core claim flags
a submission even at a perfect score. -/
theorem flag_threshold_and_core_veto_witness :
    decisionEngine 1
      [{ claimId := 0, importance := Importance.CORE
         outcome := Outcome.REFUTED }]
      { status := EligStatus.OK, violating_commits := [] } =
      FinalVerdict.FLAGGED :=
  (flag_threshold_and_core_veto 1
    [{ claimId := 0, importance := Importance.CORE
       outcome := Outcome.REFUTED }]
    { status := EligStatus.OK, violating_commits := [] } rfl).2.2
    ⟨{ claimId := 0, importance := Importance.CORE
       outcome := Outcome.REFUTED }, by decide, rfl, rfl⟩

/-- Claim C7: the batch operation returns one report per submission, in
input order, independently of the concurrency parameter. -/
theorem batch_preserves_order (subs : List SubmissionRecord)
    (env : SubmissionRecord → ProviderResponses) (w : EventWindow)
    (concurrency concurrency' : Nat) :
    (verifyBatch subs env w concurrency).length = subs.length ∧
    (∀ i : Nat, (verifyBatch subs env w concurrency)[i]? =
      (subs[i]?).map (fun s => verify s (env s) w)) ∧
    verifyBatch subs env w concurrency = verifyBatch subs env w concurrency' := by
  refine ⟨by simp [verifyBatch], fun i => ?_, rfl⟩
  simp [verifyBatch]

/-- Claim C8: `verify` is deterministic — on equal submissions, equal
recorded provider responses and equal event windows, it produces equal
reports with byte-identical serializations. -/
theorem verify_deterministic (s₁ s₂ : SubmissionRecord)
    (r₁ r₂ : ProviderResponses) (w₁ w₂ : EventWindow)
    (hs : s₁ = s₂) (hr : r₁ = r₂) (hw : w₁ = w₂) :
    verify s₁ r₁ w₁ = verify s₂ r₂ w₂ ∧
    serializeReport (verify s₁ r₁ w₁) = serializeReport (verify s₂ r₂ w₂) := by
  subst hs
  subst hr
  subst hw
  exact ⟨rfl, rfl⟩

/-- Witness for `verify_deterministic` at a concrete submission. -/
theorem verify_deterministic_witness :
    verify { id := "s1", title := "t", narrative := "n", techTags := []
             repoUrl := "u", team := [] }
        { evidence := [], timeline := [{ sha := "c1", timestamp := 3 }] }
        { startTime := 0, endTime := 10 } =
      verify { id := "s1", title := "t", narrative := "n", techTags := []
               repoUrl := "u", team := [] }
        { evidence := [], timeline := [{ sha := "c1", timestamp := 3 }] }
        { startTime := 0, endTime := 10 } :=
  (verify_deterministic _ _ _ _ _ _ rfl rfl rfl).1

end HackID
